import Mathlib

/-!
Verification of the 6-DOF robotic-arm firmware (PCA9685 servo controller).

The definitions below are a shallow embedding of the firmware's C++ source:
the channel state store (`currentAngles` / `targetAngles` arrays), the pulse
mapper `angleToPulse`, the state-store operations `moveServoImmediate` and
`setTargetAngle`, the motion scheduler `updateSmoothMovement`, the command
parser `parseCommand` and the byte-at-a-time line reader from `loop()`.
Hardware writes (`pwm.setPWM(channel, 0, pulse)`) are modelled as an emitted
list of `(zero-based channel, pulse)` pairs; serial diagnostics are modelled
by the constructor of the returned result, not as text.

C `int` values are modelled as `Int` (no 16/32-bit wrap is relevant at the
magnitudes involved: angles, pulses and channel indices all stay tiny).
`millis()` timestamps are `unsigned long` (32-bit) values; the scheduler's
`currentTime - lastUpdate` is the unsigned 32-bit difference `usub32`.
-/

/-- `#define SERVO_MIN 150` — pulse length for 0°. -/
def SERVO_MIN : Int := 150

/-- `#define SERVO_MAX 600` — pulse length for 180°. -/
def SERVO_MAX : Int := 600

/-- `const int SERVO_COUNT = 6`. -/
def SERVO_COUNT : Nat := 6

/-- `const int SMOOTH_STEP = 2` — degrees per update. -/
def SMOOTH_STEP : Int := 2

/-- `const int UPDATE_INTERVAL = 15` — milliseconds between updates. -/
def UPDATE_INTERVAL : Nat := 15

/-- Arduino `constrain(amt, low, high)` = `(amt<low)?low:((amt>high)?high:amt)`. -/
def constrain (amt low high : Int) : Int :=
  if amt < low then low else if amt > high then high else amt

/-- C/C++ signed integer division truncates toward zero (`Int.tdiv`). -/
def cdiv (a b : Int) : Int := Int.tdiv a b

/-- Arduino `map(x, in_min, in_max, out_min, out_max)` =
`(x - in_min) * (out_max - out_min) / (in_max - in_min) + out_min`. -/
def arduinoMap (x inMin inMax outMin outMax : Int) : Int :=
  cdiv ((x - inMin) * (outMax - outMin)) (inMax - inMin) + outMin

/-- `angleToPulse` of the main firmware: clamp to [0,180], then map to
[SERVO_MIN, SERVO_MAX]. -/
def angleToPulse (angle : Int) : Int :=
  arduinoMap (constrain angle 0 180) 0 180 SERVO_MIN SERVO_MAX

/-- `angleToPulse` of the GUI firmware variant (`gui_arduino_insert.ino`):
maps without clamping. -/
def angleToPulseGui (angle : Int) : Int :=
  arduinoMap angle 0 180 SERVO_MIN SERVO_MAX

/-- Unsigned 32-bit subtraction `a - b`, as computed on `unsigned long`
operands by `currentTime - lastUpdate`. -/
def usub32 (a b : Nat) : Nat := (a + (2 ^ 32 - b % 2 ^ 32)) % 2 ^ 32

/-- The firmware's mutable channel state: `currentAngles`, `targetAngles`
(both `int[SERVO_COUNT]`, initialized to 90) and `lastUpdate`
(`unsigned long`). -/
structure ArmState where
  currentAngles : Fin SERVO_COUNT → Int
  targetAngles : Fin SERVO_COUNT → Int
  lastUpdate : Nat

/-- A hardware write `pwm.setPWM(channel, 0, pulse)`: zero-based channel
paired with the pulse value. -/
abbrev Write := Nat × Int

/-- `moveServoImmediate(servoIndex, angle)`: on a bad index, print a
diagnostic and change nothing; otherwise clamp the angle, write the pulse,
and set both current and target. -/
def moveServoImmediate (st : ArmState) (servoIndex angle : Int) :
    ArmState × List Write :=
  if h : servoIndex < 1 ∨ servoIndex > (SERVO_COUNT : Int) then (st, [])
  else
    let a := constrain angle 0 180
    let pulse := angleToPulse a
    let i : Fin SERVO_COUNT := ⟨(servoIndex - 1).toNat, by
      push_neg at h; simp only [SERVO_COUNT] at h ⊢; omega⟩
    ({ st with
        currentAngles := Function.update st.currentAngles i a
        targetAngles := Function.update st.targetAngles i a },
     [(i.val, pulse)])

/-- `setTargetAngle(servoIndex, angle)`: on a bad index, print a diagnostic
and change nothing; otherwise clamp the angle and store it as the target.
No hardware write occurs. -/
def setTargetAngle (st : ArmState) (servoIndex angle : Int) :
    ArmState × List Write :=
  if h : servoIndex < 1 ∨ servoIndex > (SERVO_COUNT : Int) then (st, [])
  else
    let a := constrain angle 0 180
    let i : Fin SERVO_COUNT := ⟨(servoIndex - 1).toNat, by
      push_neg at h; simp only [SERVO_COUNT] at h ⊢; omega⟩
    ({ st with targetAngles := Function.update st.targetAngles i a }, [])

/-- The per-channel body of `updateSmoothMovement`'s `for` loop: if the
channel is away from its target, take one bounded step. The step logic is
exactly the source's:
`if (current < target) { current += SMOOTH_STEP; if (current > target) current = target; }
else { current -= SMOOTH_STEP; if (current < target) current = target; }`. -/
def stepAngle (current target : Int) : Int :=
  if current < target then
    let c := current + SMOOTH_STEP
    if c > target then target else c
  else
    let c := current - SMOOTH_STEP
    if c < target then target else c

/-- One iteration of the scheduler's `for (int i = 0; ...)` loop over the
accumulated (current-angle array, emitted writes) pair. -/
def smoothBody (targetAngles : Fin SERVO_COUNT → Int)
    (acc : (Fin SERVO_COUNT → Int) × List Write) (i : Fin SERVO_COUNT) :
    (Fin SERVO_COUNT → Int) × List Write :=
  let current := acc.1 i
  let target := targetAngles i
  if current ≠ target then
    let c := stepAngle current target
    (Function.update acc.1 i c, acc.2 ++ [(i.val, angleToPulse c)])
  else acc

/-- `updateSmoothMovement()`, with `millis()` passed in as `now`: a no-op
unless `now - lastUpdate >= UPDATE_INTERVAL` (unsigned arithmetic); on
firing, records `lastUpdate = now` and runs the per-channel loop. -/
def updateSmoothMovement (st : ArmState) (now : Nat) : ArmState × List Write :=
  if usub32 now st.lastUpdate ≥ UPDATE_INTERVAL then
    let r := (List.finRange SERVO_COUNT).foldl (smoothBody st.targetAngles)
      (st.currentAngles, [])
    ({ st with currentAngles := r.1, lastUpdate := now }, r.2)
  else (st, [])

/-- The state at startup: `currentAngles` and `targetAngles` are declared
as `{90, 90, 90, 90, 90, 90}`, `lastUpdate` as `0`. -/
def initState : ArmState :=
  { currentAngles := fun _ => 90, targetAngles := fun _ => 90, lastUpdate := 0 }

/-- C `isspace`: space, `\t`, `\n`, `\v`, `\f`, `\r` — the characters
removed by Arduino `String::trim` and skipped by `atol`. -/
def isSpaceC (c : Char) : Bool :=
  c = ' ' || c = '\t' || c = '\n' || c = '\x0B' || c = '\x0C' || c = '\r'

/-- The digit-accumulation loop of C `atol`: consume leading decimal digits,
stopping at the first non-digit. -/
def atolDigits : List Char → Int → Int
  | [], acc => acc
  | c :: cs, acc =>
    if c.isDigit then atolDigits cs (acc * 10 + ((c.toNat : Int) - 48)) else acc

/-- Arduino `String::toInt` = C `atol`: skip leading whitespace, read an
optional sign, then a best-effort run of decimal digits (zero digits parse
as 0). The 32-bit wrap of `long` is not modelled: the firmware's line
buffer caps commands at 10 characters, far below any overflowing value. -/
def atol (s : List Char) : Int :=
  match s.dropWhile isSpaceC with
  | [] => 0
  | c :: rest =>
    if c = '-' then - atolDigits rest 0
    else if c = '+' then atolDigits rest 0
    else atolDigits (c :: rest) 0

/-- Arduino `String::trim`: remove leading and trailing whitespace. -/
def trimC (s : List Char) : List Char :=
  ((s.dropWhile isSpaceC).reverse.dropWhile isSpaceC).reverse

/-- The parsed instruction `{channel_index, angle}`. -/
structure Command where
  channelIndex : Int
  angle : Int
deriving DecidableEq

/-- Outcome of `parseCommand`: success, or one of its three `ERR:`
diagnostics (command too short / invalid servo index / invalid angle). -/
inductive ParseResult where
  | ok (cmd : Command)
  | tooShort
  | invalidChannel (servoIndex : Int)
  | invalidAngle (angle : Int)
deriving DecidableEq

/-- `parseCommand(input)`: trim; reject if fewer than 2 characters remain;
`toInt` of the first character is the servo index, `toInt` of the rest is
the angle; validate index then angle; on success call `setTargetAngle`.
Every error path leaves the state untouched and only prints. -/
def parseCommand (st : ArmState) (input : List Char) : ArmState × ParseResult :=
  let t := trimC input
  if t.length < 2 then (st, .tooShort)
  else
    let servoIndex := atol (t.take 1)
    let angle := atol (t.drop 1)
    if servoIndex < 1 ∨ servoIndex > (SERVO_COUNT : Int) then
      (st, .invalidChannel servoIndex)
    else if angle < 0 ∨ angle > 180 then (st, .invalidAngle angle)
    else ((setTargetAngle st servoIndex angle).1, .ok ⟨servoIndex, angle⟩)

/-- What one byte of serial input produces in `loop()`: nothing yet, a
complete line handed on for parsing, or the buffer-overflow reset. -/
inductive ReadEvent where
  | none
  | line (l : List Char)
  | overflow
deriving DecidableEq

/-- One byte of the serial-read loop in `loop()`: on `\n` with a nonempty
buffer the accumulated line (terminator excluded) is handed to
`parseCommand` and the buffer cleared; on `\n` with an empty buffer nothing
happens; otherwise the byte is appended and a buffer longer than 10
characters is discarded with a diagnostic. -/
def pushByte (buf : List Char) (c : Char) : List Char × ReadEvent :=
  if c = '\n' then
    if buf.length > 0 then ([], .line buf) else (buf, .none)
  else
    let buf1 := buf ++ [c]
    if buf1.length > 10 then ([], .overflow) else (buf1, .none)

/-- Feed a sequence of bytes through `pushByte`, collecting the event each
byte produced. -/
def pushBytes (buf : List Char) : List Char → List Char × List ReadEvent
  | [] => (buf, [])
  | c :: cs =>
    let r := pushByte buf c
    let rest := pushBytes r.1 cs
    (rest.1, r.2 :: rest.2)

/-! ### Characterizing the scheduler's channel loop -/

lemma smoothBody_fst_apply_of_ne (tgt : Fin SERVO_COUNT → Int)
    (acc : (Fin SERVO_COUNT → Int) × List Write) (j i : Fin SERVO_COUNT)
    (hij : i ≠ j) : (smoothBody tgt acc j).1 i = acc.1 i := by
  simp only [smoothBody]
  split
  · exact Function.update_noteq hij _ _
  · rfl

lemma foldl_smoothBody_fst_of_not_mem (tgt : Fin SERVO_COUNT → Int) :
    ∀ (l : List (Fin SERVO_COUNT)) (acc : (Fin SERVO_COUNT → Int) × List Write)
      (i : Fin SERVO_COUNT), i ∉ l →
      (l.foldl (smoothBody tgt) acc).1 i = acc.1 i
  | [], _, _, _ => rfl
  | j :: l, acc, i, h => by
    simp only [List.mem_cons, not_or] at h
    simp only [List.foldl_cons]
    rw [foldl_smoothBody_fst_of_not_mem tgt l _ i h.2]
    exact smoothBody_fst_apply_of_ne tgt acc j i h.1

lemma foldl_smoothBody_fst_apply (tgt : Fin SERVO_COUNT → Int) :
    ∀ (l : List (Fin SERVO_COUNT)), l.Nodup →
      ∀ (cur : Fin SERVO_COUNT → Int) (ws : List Write) (i : Fin SERVO_COUNT),
      (l.foldl (smoothBody tgt) (cur, ws)).1 i =
        if i ∈ l ∧ cur i ≠ tgt i then stepAngle (cur i) (tgt i) else cur i
  | [], _, cur, ws, i => by simp
  | j :: l, hnd, cur, ws, i => by
    obtain ⟨hj, hl⟩ := List.nodup_cons.mp hnd
    simp only [List.foldl_cons]
    by_cases hij : i = j
    · subst hij
      rw [foldl_smoothBody_fst_of_not_mem tgt l _ i hj]
      simp only [smoothBody]
      by_cases hc : cur i ≠ tgt i
      · simp [hc, Function.update_same]
      · simp [hc]
    · simp only [smoothBody]
      by_cases hc : cur j ≠ tgt j
      · rw [if_pos hc]
        rw [foldl_smoothBody_fst_apply tgt l hl _ _ i,
          Function.update_noteq (fun h => hij h) _ _]
        simp [List.mem_cons, hij]
      · rw [if_neg hc]
        rw [foldl_smoothBody_fst_apply tgt l hl cur ws i]
        simp [List.mem_cons, hij]

lemma foldl_smoothBody_snd (tgt : Fin SERVO_COUNT → Int) :
    ∀ (l : List (Fin SERVO_COUNT)), l.Nodup →
      ∀ (cur : Fin SERVO_COUNT → Int) (ws : List Write),
      (l.foldl (smoothBody tgt) (cur, ws)).2 =
        ws ++ (l.filter fun i => cur i != tgt i).map
          (fun i => (i.val, angleToPulse (stepAngle (cur i) (tgt i))))
  | [], _, cur, ws => by simp
  | j :: l, hnd, cur, ws => by
    obtain ⟨hj, hl⟩ := List.nodup_cons.mp hnd
    simp only [List.foldl_cons, smoothBody]
    by_cases hc : cur j ≠ tgt j
    · rw [if_pos hc]
      rw [foldl_smoothBody_snd tgt l hl _ _]
      have hcur : ∀ i ∈ l, Function.update cur j (stepAngle (cur j) (tgt j)) i
          = cur i := by
        intro i hi
        have hij : i ≠ j := fun h => hj (h ▸ hi)
        exact Function.update_noteq hij _ _
      have hfil : (l.filter fun i =>
            Function.update cur j (stepAngle (cur j) (tgt j)) i != tgt i)
          = l.filter fun i => cur i != tgt i := by
        refine List.filter_congr ?_
        intro i hi
        rw [hcur i hi]
      rw [hfil]
      have hmap : ((l.filter fun i => cur i != tgt i).map fun i =>
            (i.val, angleToPulse (stepAngle
              (Function.update cur j (stepAngle (cur j) (tgt j)) i) (tgt i))))
          = (l.filter fun i => cur i != tgt i).map fun i =>
            (i.val, angleToPulse (stepAngle (cur i) (tgt i))) := by
        refine List.map_congr_left ?_
        intro i hi
        rw [hcur i (List.mem_filter.mp hi).1]
      rw [hmap]
      have hpj : (cur j != tgt j) = true := by simpa using hc
      simp [List.filter_cons, hpj, List.append_assoc]
    · rw [if_neg hc]
      rw [foldl_smoothBody_snd tgt l hl cur ws]
      have hpj : (cur j != tgt j) = false := by simpa using hc
      simp [List.filter_cons, hpj]

/-- On a firing tick, channel `i`'s new current angle: one `stepAngle` step
when away from target, unchanged otherwise. -/
lemma updateSmoothMovement_fst_apply (st : ArmState) (now : Nat)
    (h : usub32 now st.lastUpdate ≥ UPDATE_INTERVAL) (i : Fin SERVO_COUNT) :
    (updateSmoothMovement st now).1.currentAngles i =
      if st.currentAngles i ≠ st.targetAngles i then
        stepAngle (st.currentAngles i) (st.targetAngles i)
      else st.currentAngles i := by
  simp only [updateSmoothMovement, if_pos h]
  rw [foldl_smoothBody_fst_apply st.targetAngles _ (List.nodup_finRange _) _ _ i]
  simp [List.mem_finRange]

lemma updateSmoothMovement_fst_target (st : ArmState) (now : Nat) :
    (updateSmoothMovement st now).1.targetAngles = st.targetAngles := by
  simp only [updateSmoothMovement]
  split <;> rfl

lemma updateSmoothMovement_fst_lastUpdate (st : ArmState) (now : Nat)
    (h : usub32 now st.lastUpdate ≥ UPDATE_INTERVAL) :
    (updateSmoothMovement st now).1.lastUpdate = now := by
  simp only [updateSmoothMovement, if_pos h]

/-- On a firing tick, the emitted writes are exactly one per changed
channel, in channel order, carrying the new angle's pulse. -/
lemma updateSmoothMovement_snd (st : ArmState) (now : Nat)
    (h : usub32 now st.lastUpdate ≥ UPDATE_INTERVAL) :
    (updateSmoothMovement st now).2 =
      ((List.finRange SERVO_COUNT).filter fun i =>
          st.currentAngles i != st.targetAngles i).map
        (fun i => (i.val, angleToPulse
          (stepAngle (st.currentAngles i) (st.targetAngles i)))) := by
  simp only [updateSmoothMovement, if_pos h]
  rw [foldl_smoothBody_snd st.targetAngles _ (List.nodup_finRange _)]
  simp

lemma updateSmoothMovement_skip (st : ArmState) (now : Nat)
    (h : usub32 now st.lastUpdate < UPDATE_INTERVAL) :
    updateSmoothMovement st now = (st, []) := by
  simp only [updateSmoothMovement]
  rw [if_neg (by omega)]

example : angleToPulse 0 = 150 := by decide
example : angleToPulse 180 = 600 := by decide
example : angleToPulse 90 = 375 := by decide
example : angleToPulse 200 = 600 := by decide
example : stepAngle 0 90 = 2 := by decide
example : stepAngle 89 90 = 90 := by decide
example : atol ['9', '0'] = 90 := by decide
example : atol ['1', '2', '0'] = 120 := by decide
example : atol ['x'] = 0 := by decide
example : (parseCommand initState ['1', '9', '0']).2 =
    ParseResult.ok ⟨1, 90⟩ := by decide
example : (parseCommand initState ['7', '9', '9', '9']).2 =
    ParseResult.invalidChannel 7 := by decide
example : (pushByte [] '\n').2 = ReadEvent.none := by decide

/-! ### Basic facts about `constrain`, `stepAngle` and the pulse map -/

lemma constrain_lb (a lo hi : Int) (h : lo ≤ hi) : lo ≤ constrain a lo hi := by
  simp only [constrain]
  split_ifs <;> omega

lemma constrain_ub (a lo hi : Int) (h : lo ≤ hi) : constrain a lo hi ≤ hi := by
  simp only [constrain]
  split_ifs <;> omega

lemma constrain_eq_self (a lo hi : Int) (h1 : lo ≤ a) (h2 : a ≤ hi) :
    constrain a lo hi = a := by
  simp only [constrain]
  split_ifs <;> omega

lemma stepAngle_lt (c t : Int) (h : c < t) :
    c < stepAngle c t ∧ stepAngle c t ≤ t := by
  simp only [stepAngle, SMOOTH_STEP]
  split_ifs <;> omega

lemma stepAngle_gt (c t : Int) (h : t < c) :
    t ≤ stepAngle c t ∧ stepAngle c t < c := by
  simp only [stepAngle, SMOOTH_STEP]
  split_ifs <;> omega

lemma stepAngle_bound (c t : Int) :
    stepAngle c t - c ≤ SMOOTH_STEP ∧ c - stepAngle c t ≤ SMOOTH_STEP := by
  simp only [stepAngle, SMOOTH_STEP]
  split_ifs <;> omega

lemma stepAngle_close (c t : Int) (h1 : t - c < SMOOTH_STEP)
    (h2 : c - t < SMOOTH_STEP) : stepAngle c t = t := by
  simp only [stepAngle, SMOOTH_STEP] at h1 h2 ⊢
  split_ifs <;> omega

lemma stepAngle_range (c t : Int) (hc0 : 0 ≤ c) (hc1 : c ≤ 180)
    (ht0 : 0 ≤ t) (ht1 : t ≤ 180) :
    0 ≤ stepAngle c t ∧ stepAngle c t ≤ 180 := by
  simp only [stepAngle, SMOOTH_STEP]
  split_ifs <;> omega

/-! ### Claims about the pulse mapper -/

/-- Claim C6: `angleToPulse` clamps its argument to [0,180] and returns
`PULSE_MIN + clamped * (PULSE_MAX - PULSE_MIN) / 180` with floor division
(PULSE_MIN = 150, PULSE_MAX = 600); hence `angleToPulse 0 = 150`,
`angleToPulse 180 = 600`, and it is monotone non-decreasing on [0,180]. -/
theorem claim_C6_angleToPulse :
    (∀ a : Int, angleToPulse a =
      SERVO_MIN + constrain a 0 180 * (SERVO_MAX - SERVO_MIN) / 180) ∧
    angleToPulse 0 = SERVO_MIN ∧ angleToPulse 180 = SERVO_MAX ∧
    (∀ a b : Int, 0 ≤ a → a ≤ b → b ≤ 180 →
      angleToPulse a ≤ angleToPulse b) := by
  refine ⟨?_, by decide, by decide, ?_⟩
  · intro a
    have h0 : (0 : Int) ≤ constrain a 0 180 := constrain_lb a 0 180 (by norm_num)
    simp only [angleToPulse, arduinoMap, cdiv, SERVO_MIN, SERVO_MAX, sub_zero]
    rw [Int.tdiv_eq_ediv (mul_nonneg h0 (by norm_num)) (by norm_num)]
    rw [add_comm]
  · intro a b ha hab hb
    have hca : constrain a 0 180 = a :=
      constrain_eq_self a 0 180 ha (le_trans hab hb)
    have hcb : constrain b 0 180 = b :=
      constrain_eq_self b 0 180 (le_trans ha hab) hb
    simp only [angleToPulse, arduinoMap, cdiv, sub_zero, hca, hcb]
    have ha1 : (0 : Int) ≤ a * (SERVO_MAX - SERVO_MIN) :=
      mul_nonneg ha (by norm_num [SERVO_MIN, SERVO_MAX])
    have hb1 : (0 : Int) ≤ b * (SERVO_MAX - SERVO_MIN) :=
      mul_nonneg (le_trans ha hab) (by norm_num [SERVO_MIN, SERVO_MAX])
    rw [Int.tdiv_eq_ediv ha1 (by norm_num), Int.tdiv_eq_ediv hb1 (by norm_num)]
    have hm : a * (SERVO_MAX - SERVO_MIN) ≤ b * (SERVO_MAX - SERVO_MIN) :=
      mul_le_mul_of_nonneg_right hab (by norm_num [SERVO_MIN, SERVO_MAX])
    have := Int.ediv_le_ediv (c := 180) (by norm_num) hm
    linarith

/-- Claim C6 witness: the general formula at 200 and monotonicity at the
endpoints 0 and 180. -/
theorem claim_C6_witness :
    angleToPulse 200 =
      SERVO_MIN + constrain 200 0 180 * (SERVO_MAX - SERVO_MIN) / 180 ∧
    angleToPulse 0 ≤ angleToPulse 180 :=
  ⟨claim_C6_angleToPulse.1 200,
   claim_C6_angleToPulse.2.2.2 0 180 (by decide) (by decide) (by decide)⟩

/-- Claim C10: on [0,180] the main firmware's `angleToPulse` (clamp then
map) and the GUI variant's `angleToPulse` (map only) agree, both computing
`150 + a * 450 / 180`. -/
theorem claim_C10_variants_agree : ∀ a : Int, 0 ≤ a → a ≤ 180 →
    angleToPulse a = angleToPulseGui a ∧
    angleToPulseGui a = 150 + a * 450 / 180 := by
  intro a h0 h1
  have hca : constrain a 0 180 = a := constrain_eq_self a 0 180 h0 h1
  constructor
  · simp only [angleToPulse, angleToPulseGui, hca]
  · simp only [angleToPulseGui, arduinoMap, cdiv, SERVO_MIN, SERVO_MAX,
      sub_zero]
    norm_num
    rw [Int.tdiv_eq_ediv (mul_nonneg h0 (by norm_num)) (by norm_num)]
    rw [add_comm]

/-- Claim C10 witness: both variants at 90. -/
theorem claim_C10_witness :
    angleToPulse 90 = angleToPulseGui 90 ∧
    angleToPulseGui 90 = 150 + 90 * 450 / 180 :=
  claim_C10_variants_agree 90 (by decide) (by decide)

/-! ### Claims about the channel state store -/

/-- Claim C7: with an out-of-range index, `setTargetAngle` changes nothing
and writes nothing; with a valid index it changes exactly that channel's
target (to the clamped angle), leaves every current angle and every other
channel alone, and still writes nothing — whereas `moveServoImmediate`
does write the pulse. -/
theorem claim_C7_setTargetAngle_frame :
    ∀ (st : ArmState) (servoIndex angle : Int),
    (servoIndex < 1 ∨ servoIndex > (SERVO_COUNT : Int) →
      setTargetAngle st servoIndex angle = (st, [])) ∧
    (1 ≤ servoIndex → servoIndex ≤ (SERVO_COUNT : Int) →
      (setTargetAngle st servoIndex angle).2 = [] ∧
      (setTargetAngle st servoIndex angle).1.currentAngles =
        st.currentAngles ∧
      (setTargetAngle st servoIndex angle).1.lastUpdate = st.lastUpdate ∧
      (∀ i : Fin SERVO_COUNT, (i.val : Int) = servoIndex - 1 →
        (setTargetAngle st servoIndex angle).1.targetAngles i =
          constrain angle 0 180) ∧
      (∀ i : Fin SERVO_COUNT, (i.val : Int) ≠ servoIndex - 1 →
        (setTargetAngle st servoIndex angle).1.targetAngles i =
          st.targetAngles i) ∧
      (moveServoImmediate st servoIndex angle).2 =
        [((servoIndex - 1).toNat, angleToPulse (constrain angle 0 180))]) := by
  intro st servoIndex angle
  constructor
  · intro h
    simp only [setTargetAngle]
    rw [dif_pos h]
  · intro h1 h2
    have hcond : ¬(servoIndex < 1 ∨ servoIndex > (SERVO_COUNT : Int)) := by
      omega
    simp only [setTargetAngle, moveServoImmediate]
    rw [dif_neg hcond, dif_neg hcond]
    refine ⟨rfl, rfl, rfl, ?_, ?_, rfl⟩
    · intro i hi
      dsimp only
      rw [Function.update_apply]
      split
      · rfl
      · rename_i hne
        exact absurd (Fin.ext (by
          show i.val = (servoIndex - 1).toNat
          omega)) hne
    · intro i hi
      dsimp only
      rw [Function.update_apply]
      split
      · rename_i heq
        refine absurd ?_ hi
        rw [heq]
        show (((servoIndex - 1).toNat : Nat) : Int) = servoIndex - 1
        omega
      · rfl

/-- Claim C7 witness: index 0 is rejected without touching the state;
index 3 sets exactly channel 3's target. -/
theorem claim_C7_witness :
    setTargetAngle initState 0 45 = (initState, []) ∧
    (setTargetAngle initState 3 45).1.targetAngles ⟨2, by decide⟩ =
      constrain 45 0 180 ∧
    (setTargetAngle initState 3 45).1.targetAngles ⟨0, by decide⟩ =
      initState.targetAngles ⟨0, by decide⟩ :=
  ⟨(claim_C7_setTargetAngle_frame initState 0 45).1 (Or.inl (by decide)),
   ((claim_C7_setTargetAngle_frame initState 3 45).2 (by decide)
     (by decide)).2.2.2.1 ⟨2, by decide⟩ (by decide),
   ((claim_C7_setTargetAngle_frame initState 3 45).2 (by decide)
     (by decide)).2.2.2.2.1 ⟨0, by decide⟩ (by decide)⟩

/-! ### Reachable states and the angle-range invariant -/

/-- States reachable from startup by any sequence of the three mutating
operations: `setTargetAngle`, `moveServoImmediate` and scheduler ticks. -/
inductive Reachable : ArmState → Prop where
  | init : Reachable initState
  | setTarget (st : ArmState) (servoIndex angle : Int) :
      Reachable st → Reachable (setTargetAngle st servoIndex angle).1
  | moveImmediate (st : ArmState) (servoIndex angle : Int) :
      Reachable st → Reachable (moveServoImmediate st servoIndex angle).1
  | tick (st : ArmState) (now : Nat) :
      Reachable st → Reachable (updateSmoothMovement st now).1

/-- Every channel's current and target angle lies in [0,180]. -/
def anglesInRange (st : ArmState) : Prop :=
  ∀ i : Fin SERVO_COUNT,
    0 ≤ st.currentAngles i ∧ st.currentAngles i ≤ 180 ∧
    0 ≤ st.targetAngles i ∧ st.targetAngles i ≤ 180

/-- Claim C3: in every state reachable from startup, every channel's
current and target angle lie within [0,180]. -/
theorem claim_C3_invariant : ∀ st : ArmState, Reachable st →
    anglesInRange st := by
  intro st h
  induction h with
  | init =>
    intro i
    simp only [initState]
    norm_num
  | setTarget st servoIndex angle _ ih =>
    intro i
    simp only [setTargetAngle]
    split
    · exact ih i
    · dsimp only
      refine ⟨(ih i).1, (ih i).2.1, ?_⟩
      rw [Function.update_apply]
      split
      · exact ⟨constrain_lb _ _ _ (by norm_num),
          constrain_ub _ _ _ (by norm_num)⟩
      · exact (ih i).2.2
  | moveImmediate st servoIndex angle _ ih =>
    intro i
    simp only [moveServoImmediate]
    split
    · exact ih i
    · dsimp only
      constructor
      · rw [Function.update_apply]
        split
        · exact constrain_lb _ _ _ (by norm_num)
        · exact (ih i).1
      constructor
      · rw [Function.update_apply]
        split
        · exact constrain_ub _ _ _ (by norm_num)
        · exact (ih i).2.1
      · rw [Function.update_apply]
        split
        · exact ⟨constrain_lb _ _ _ (by norm_num),
            constrain_ub _ _ _ (by norm_num)⟩
        · exact (ih i).2.2
  | tick st now _ ih =>
    intro i
    by_cases hg : usub32 now st.lastUpdate ≥ UPDATE_INTERVAL
    · rcases ih i with ⟨h1, h2, h3, h4⟩
      rw [updateSmoothMovement_fst_apply st now hg i,
        updateSmoothMovement_fst_target st now]
      split
      · have hr := stepAngle_range _ _ h1 h2 h3 h4
        exact ⟨hr.1, hr.2, h3, h4⟩
      · exact ⟨h1, h2, h3, h4⟩
    · rw [updateSmoothMovement_skip st now (by omega)]
      exact ih i

/-- Claim C3 witness: the invariant at the startup state itself. -/
theorem claim_C3_witness : anglesInRange initState :=
  claim_C3_invariant initState Reachable.init

/-! ### Claims about the motion scheduler -/

/-- Claim C1: a tick before the interval elapses changes no state and
writes nothing; a firing tick records `lastUpdate = now`, leaves targets
and at-rest channels alone, moves each changed channel toward its target
by at most `SMOOTH_STEP` without overshooting (landing exactly on the
target once the remaining distance is below the step), and emits exactly
one write per changed channel, carrying the new current angle's pulse. -/
theorem claim_C1_tick : ∀ (st : ArmState) (now : Nat),
    (usub32 now st.lastUpdate < UPDATE_INTERVAL →
      updateSmoothMovement st now = (st, [])) ∧
    (usub32 now st.lastUpdate ≥ UPDATE_INTERVAL →
      (updateSmoothMovement st now).1.lastUpdate = now ∧
      (updateSmoothMovement st now).1.targetAngles = st.targetAngles ∧
      (∀ i : Fin SERVO_COUNT, st.currentAngles i = st.targetAngles i →
        (updateSmoothMovement st now).1.currentAngles i =
          st.currentAngles i) ∧
      (∀ i : Fin SERVO_COUNT, st.currentAngles i ≠ st.targetAngles i →
        (st.currentAngles i < st.targetAngles i →
          st.currentAngles i < (updateSmoothMovement st now).1.currentAngles i ∧
          (updateSmoothMovement st now).1.currentAngles i ≤
            st.targetAngles i) ∧
        (st.targetAngles i < st.currentAngles i →
          st.targetAngles i ≤ (updateSmoothMovement st now).1.currentAngles i ∧
          (updateSmoothMovement st now).1.currentAngles i <
            st.currentAngles i) ∧
        (updateSmoothMovement st now).1.currentAngles i -
          st.currentAngles i ≤ SMOOTH_STEP ∧
        st.currentAngles i -
          (updateSmoothMovement st now).1.currentAngles i ≤ SMOOTH_STEP ∧
        (st.targetAngles i - st.currentAngles i < SMOOTH_STEP →
          st.currentAngles i - st.targetAngles i < SMOOTH_STEP →
          (updateSmoothMovement st now).1.currentAngles i =
            st.targetAngles i)) ∧
      (updateSmoothMovement st now).2 =
        ((List.finRange SERVO_COUNT).filter fun i =>
            st.currentAngles i != st.targetAngles i).map
          (fun i => (i.val, angleToPulse
            ((updateSmoothMovement st now).1.currentAngles i)))) := by
  intro st now
  constructor
  · exact updateSmoothMovement_skip st now
  · intro hg
    refine ⟨updateSmoothMovement_fst_lastUpdate st now hg,
      updateSmoothMovement_fst_target st now, ?_, ?_, ?_⟩
    · intro i hi
      rw [updateSmoothMovement_fst_apply st now hg i, if_neg (by simp [hi])]
    · intro i hi
      rw [updateSmoothMovement_fst_apply st now hg i, if_pos hi]
      refine ⟨fun hlt => stepAngle_lt _ _ hlt,
        fun hgt => stepAngle_gt _ _ hgt,
        (stepAngle_bound _ _).1, (stepAngle_bound _ _).2,
        fun hc1 hc2 => stepAngle_close _ _ hc1 hc2⟩
    · rw [updateSmoothMovement_snd st now hg]
      refine List.map_congr_left ?_
      intro i hi
      have hchanged : st.currentAngles i ≠ st.targetAngles i := by
        have := (List.mem_filter.mp hi).2
        simpa using this
      rw [updateSmoothMovement_fst_apply st now hg i, if_pos hchanged]

/-- Claim C1 witness: at `now = 5` the gate rejects and nothing happens;
after setting channel 1's target to 0, a tick at `now = 20` fires,
records the time and moves channel 1 from 90 to 88. -/
theorem claim_C1_witness :
    updateSmoothMovement initState 5 = (initState, []) ∧
    (updateSmoothMovement (setTargetAngle initState 1 0).1 20).1.lastUpdate
      = 20 ∧
    ((setTargetAngle initState 1 0).1.targetAngles ⟨0, by decide⟩ <
      (setTargetAngle initState 1 0).1.currentAngles ⟨0, by decide⟩ →
      (setTargetAngle initState 1 0).1.targetAngles ⟨0, by decide⟩ ≤
        (updateSmoothMovement (setTargetAngle initState 1 0).1
          20).1.currentAngles ⟨0, by decide⟩ ∧
      (updateSmoothMovement (setTargetAngle initState 1 0).1
        20).1.currentAngles ⟨0, by decide⟩ <
        (setTargetAngle initState 1 0).1.currentAngles ⟨0, by decide⟩) :=
  ⟨(claim_C1_tick initState 5).1 (by decide),
   ((claim_C1_tick (setTargetAngle initState 1 0).1 20).2 (by decide)).1,
   (((claim_C1_tick (setTargetAngle initState 1 0).1 20).2
      (by decide)).2.2.2.1 ⟨0, by decide⟩ (by decide)).2.1⟩

/-- A tick on a state whose channels are all at their targets emits no
write and leaves every angle unchanged, whatever `now` is. -/
lemma updateSmoothMovement_atRest (st : ArmState) (now : Nat)
    (h : ∀ i, st.currentAngles i = st.targetAngles i) :
    (updateSmoothMovement st now).2 = [] ∧
    (updateSmoothMovement st now).1.currentAngles = st.currentAngles ∧
    (updateSmoothMovement st now).1.targetAngles = st.targetAngles := by
  by_cases hg : usub32 now st.lastUpdate ≥ UPDATE_INTERVAL
  · refine ⟨?_, ?_, updateSmoothMovement_fst_target st now⟩
    · rw [updateSmoothMovement_snd st now hg]
      have hnil : ((List.finRange SERVO_COUNT).filter fun i =>
          st.currentAngles i != st.targetAngles i) = [] := by
        rw [List.filter_eq_nil_iff]
        intro i _
        simp [h i]
      rw [hnil]
      rfl
    · funext i
      rw [updateSmoothMovement_fst_apply st now hg i, if_neg (by simp [h i])]
  · rw [updateSmoothMovement_skip st now (by omega)]
    exact ⟨rfl, rfl, rfl⟩

/-- The initial state of the reference trajectory behind claim C2: channel
1 (index 0) at current angle 0 with target 90, every other channel at rest
at 90. -/
def c2Start : ArmState :=
  { currentAngles := fun i => if i = (⟨0, by decide⟩ : Fin SERVO_COUNT) then 0 else 90,
    targetAngles := fun _ => 90,
    lastUpdate := 0 }

/-- The state after `k` scheduler firings of the reference trajectory,
ticking every `UPDATE_INTERVAL` milliseconds (each tick passes the gate). -/
def c2State : Nat → ArmState
  | 0 => c2Start
  | k + 1 => (updateSmoothMovement (c2State k) (15 * (k + 1))).1

/-- The writes emitted by the `(k+1)`-st firing of the reference
trajectory. -/
def c2Writes (k : Nat) : List Write :=
  (updateSmoothMovement (c2State k) (15 * (k + 1))).2

set_option maxRecDepth 40000 in
/-- Claim C2: from current 0 / target 90 with `SMOOTH_STEP = 2`, 45
firings reach 90 exactly, each of the 45 firings writes one pulse for that
channel, and afterwards no firing writes anything or moves any angle until
a new target is set. -/
theorem claim_C2_trajectory :
    (c2State 45).currentAngles ⟨0, by decide⟩ = 90 ∧
    (∀ k, k < 45 →
      c2Writes k = [(0, angleToPulse (2 * ((k : Int) + 1)))]) ∧
    (∀ now : Nat,
      (updateSmoothMovement (c2State 45) now).2 = [] ∧
      (updateSmoothMovement (c2State 45) now).1.currentAngles =
        (c2State 45).currentAngles ∧
      (updateSmoothMovement (c2State 45) now).1.targetAngles =
        (c2State 45).targetAngles) := by
  refine ⟨by decide, by decide, ?_⟩
  intro now
  exact updateSmoothMovement_atRest (c2State 45) now (by decide)

set_option maxRecDepth 40000 in
/-- Claim C2 witness: the first firing's single write, and the 46th tick
(at time 700) writing nothing. -/
theorem claim_C2_witness :
    c2Writes 0 = [(0, angleToPulse (2 * ((0 : Int) + 1)))] ∧
    (updateSmoothMovement (c2State 45) 700).2 = [] :=
  ⟨claim_C2_trajectory.2.1 0 (by decide),
   (claim_C2_trajectory.2.2 700).1⟩

/-! ### Claims about the command parser -/

/-- A single non-digit character coerces to 0 under `atol`. -/
lemma atol_single_nondigit (c : Char) (h : ¬ c.isDigit) : atol [c] = 0 := by
  by_cases hs : isSpaceC c
  · simp [atol, List.dropWhile_cons, hs, atolDigits]
  · by_cases h1 : c = '-'
    · subst h1
      decide
    · by_cases h2 : c = '+'
      · subst h2
        decide
      · simp [atol, List.dropWhile_cons, hs, h1, h2, atolDigits, h]

/-- Trimming never lengthens a string. -/
lemma trimC_length_le (s : List Char) : (trimC s).length ≤ s.length := by
  simp only [trimC, List.length_reverse]
  calc ((s.dropWhile isSpaceC).reverse.dropWhile isSpaceC).length
      ≤ (s.dropWhile isSpaceC).reverse.length :=
        (List.dropWhile_sublist _).length_le
    _ = (s.dropWhile isSpaceC).length := List.length_reverse _
    _ ≤ s.length := (List.dropWhile_sublist _).length_le

/-- Claim C4: the parser reads the first trimmed character as the channel
and the rest as the angle, with best-effort coercion (non-digit single
characters coerce to 0; a partial numeric prefix parses its digits; pure
coercion never rejects), and on success returns the parsed values
unmodified; in particular "190" parses to (1, 90) and "5120" to (5, 120). -/
theorem claim_C4_parse :
    (∀ (st : ArmState) (input : List Char),
      2 ≤ (trimC input).length →
      1 ≤ atol ((trimC input).take 1) →
      atol ((trimC input).take 1) ≤ (SERVO_COUNT : Int) →
      0 ≤ atol ((trimC input).drop 1) →
      atol ((trimC input).drop 1) ≤ 180 →
      (parseCommand st input).2 = ParseResult.ok
        ⟨atol ((trimC input).take 1), atol ((trimC input).drop 1)⟩) ∧
    (∀ c : Char, ¬ c.isDigit → atol [c] = 0) ∧
    (∀ st : ArmState, (parseCommand st ['1', '9', '0']).2 =
      ParseResult.ok ⟨1, 90⟩) ∧
    (∀ st : ArmState, (parseCommand st ['5', '1', '2', '0']).2 =
      ParseResult.ok ⟨5, 120⟩) ∧
    (∀ st : ArmState, (parseCommand st ['1', 'x', 'x']).2 =
      ParseResult.ok ⟨1, 0⟩) ∧
    (∀ st : ArmState, (parseCommand st ['1', '9', 'x']).2 =
      ParseResult.ok ⟨1, 9⟩) := by
  refine ⟨?_, atol_single_nondigit, fun st => rfl, fun st => rfl,
    fun st => rfl, fun st => rfl⟩
  intro st input hlen h1 h2 h3 h4
  simp only [parseCommand]
  rw [if_neg (by omega), if_neg (by omega), if_neg (by omega)]

/-- Claim C4 witness: the general success path at "190" and coercion of a
non-digit character. -/
theorem claim_C4_witness :
    (parseCommand initState ['1', '9', '0']).2 = ParseResult.ok
      ⟨atol ((trimC ['1', '9', '0']).take 1),
       atol ((trimC ['1', '9', '0']).drop 1)⟩ ∧
    atol ['x'] = 0 :=
  ⟨claim_C4_parse.1 initState ['1', '9', '0'] (by decide) (by decide)
    (by decide) (by decide) (by decide),
   claim_C4_parse.2.1 'x' (by decide)⟩

/-- Claim C5: the parser rejects in a fixed order — `TooShort` when the
trimmed line has fewer than 2 characters, else `InvalidChannel` when the
index is outside [1,6] (so "7999" is `InvalidChannel`, the channel check
firing first), else `InvalidAngle` when the angle is outside [0,180] — and
every rejection leaves the state unchanged. -/
theorem claim_C5_parse_errors :
    (∀ (st : ArmState) (input : List Char),
      ((trimC input).length < 2 →
        parseCommand st input = (st, ParseResult.tooShort)) ∧
      (2 ≤ (trimC input).length →
        (atol ((trimC input).take 1) < 1 ∨
          (SERVO_COUNT : Int) < atol ((trimC input).take 1)) →
        parseCommand st input =
          (st, ParseResult.invalidChannel (atol ((trimC input).take 1)))) ∧
      (2 ≤ (trimC input).length →
        1 ≤ atol ((trimC input).take 1) →
        atol ((trimC input).take 1) ≤ (SERVO_COUNT : Int) →
        (atol ((trimC input).drop 1) < 0 ∨
          180 < atol ((trimC input).drop 1)) →
        parseCommand st input =
          (st, ParseResult.invalidAngle (atol ((trimC input).drop 1))))) ∧
    (∀ st : ArmState, parseCommand st ['7', '9', '9', '9'] =
      (st, ParseResult.invalidChannel 7)) := by
  refine ⟨?_, fun st => rfl⟩
  intro st input
  refine ⟨?_, ?_, ?_⟩
  · intro hlen
    simp only [parseCommand]
    rw [if_pos hlen]
  · intro hlen hch
    simp only [parseCommand]
    rw [if_neg (by omega), if_pos (by omega)]
  · intro hlen hc1 hc2 hang
    simp only [parseCommand]
    rw [if_neg (by omega), if_neg (by omega), if_pos (by omega)]

/-- Claim C5 witness: a bare "1" is too short; "7999" hits the channel
check before the angle check; "1200" is an invalid angle. -/
theorem claim_C5_witness :
    parseCommand initState ['1'] = (initState, ParseResult.tooShort) ∧
    parseCommand initState ['7', '9', '9', '9'] =
      (initState, ParseResult.invalidChannel
        (atol ((trimC ['7', '9', '9', '9']).take 1))) ∧
    parseCommand initState ['1', '2', '0', '0'] =
      (initState, ParseResult.invalidAngle
        (atol ((trimC ['1', '2', '0', '0']).drop 1))) :=
  ⟨(claim_C5_parse_errors.1 initState ['1']).1 (by decide),
   (claim_C5_parse_errors.1 initState ['7', '9', '9', '9']).2.1 (by decide)
     (by decide),
   (claim_C5_parse_errors.1 initState ['1', '2', '0', '0']).2.2 (by decide)
     (by decide) (by decide) (by decide)⟩

/-! ### Claims about the line reader -/

lemma pushByte_nonterm_lt (buf : List Char) (c : Char) (h : c ≠ '\n')
    (hlen : buf.length < 10) : pushByte buf c = (buf ++ [c], .none) := by
  simp only [pushByte]
  rw [if_neg h, if_neg (by
    simp only [List.length_append, List.length_cons, List.length_nil]
    omega)]

lemma pushByte_nonterm_full (buf : List Char) (c : Char) (h : c ≠ '\n')
    (hlen : buf.length = 10) : pushByte buf c = ([], .overflow) := by
  simp only [pushByte]
  rw [if_neg h, if_pos (by
    simp only [List.length_append, List.length_cons, List.length_nil]
    omega)]

lemma pushBytes_overflow : ∀ (cs buf : List Char),
    (∀ c ∈ cs, c ≠ '\n') → buf.length + cs.length = 11 →
    buf.length ≤ 10 →
    pushBytes buf cs = ([], List.replicate (cs.length - 1) ReadEvent.none
      ++ [ReadEvent.overflow])
  | [], buf, _, hsum, hle => by
    simp only [List.length_nil] at hsum
    omega
  | c :: cs, buf, hall, hsum, hle => by
    simp only [List.length_cons] at hsum
    by_cases hfull : buf.length = 10
    · have hcs : cs = [] := List.length_eq_zero.mp (by omega)
      subst hcs
      simp only [pushBytes]
      rw [pushByte_nonterm_full buf c (hall c (by simp)) hfull]
      simp [pushBytes]
    · have hlt : buf.length < 10 := by omega
      simp only [pushBytes]
      rw [pushByte_nonterm_lt buf c (hall c (by simp)) hlt]
      rw [pushBytes_overflow cs (buf ++ [c])
        (fun d hd => hall d (by simp [hd]))
        (by simp only [List.length_append, List.length_cons,
          List.length_nil]; omega)
        (by simp only [List.length_append, List.length_cons,
          List.length_nil]; omega)]
      obtain ⟨m, hm⟩ : ∃ m, cs.length = m + 1 := ⟨cs.length - 1, by omega⟩
      simp [hm, List.replicate_succ]

/-- Claim C8: 11 consecutive non-terminator bytes overflow the 10-character
buffer — the 11th byte resets the buffer to empty with an overflow
diagnostic and no line is produced; a fresh byte then starts a new
accumulation; and `pushByte` never leaves more than 10 characters
buffered. -/
theorem claim_C8_overflow :
    (∀ cs : List Char, cs.length = 11 → (∀ c ∈ cs, c ≠ '\n') →
      pushBytes [] cs =
        ([], List.replicate 10 ReadEvent.none ++ [ReadEvent.overflow])) ∧
    (∀ b : Char, b ≠ '\n' → pushByte [] b = ([b], ReadEvent.none)) ∧
    (∀ (buf : List Char) (c : Char), buf.length ≤ 10 →
      ((pushByte buf c).1).length ≤ 10) := by
  refine ⟨?_, ?_, ?_⟩
  · intro cs hlen hall
    have h := pushBytes_overflow cs [] hall (by simp [hlen]) (by simp)
    rw [h, hlen]
  · intro b hb
    exact pushByte_nonterm_lt [] b hb (by simp)
  · intro buf c hle
    simp only [pushByte]
    split
    · split
      · simp
      · exact hle
    · split
      · simp
      · rename_i h2
        simp only [List.length_append]
        simp only [not_lt, List.length_append] at h2
        omega

/-- Claim C8 witness: eleven letters overflow; a fresh byte starts over;
the cap holds on a concrete buffer. -/
theorem claim_C8_witness :
    pushBytes [] (List.replicate 11 'a') =
      ([], List.replicate 10 ReadEvent.none ++ [ReadEvent.overflow]) ∧
    pushByte [] 'b' = (['b'], ReadEvent.none) ∧
    ((pushByte ['x'] 'y').1).length ≤ 10 :=
  ⟨claim_C8_overflow.1 (List.replicate 11 'a') (by decide) (by decide),
   claim_C8_overflow.2.1 'b' (by decide),
   claim_C8_overflow.2.2 ['x'] 'y' (by decide)⟩

/-- Claim C9 counterexample: on a bare `\n` with an empty buffer the
firmware produces no line at all — `loop()` guards the parser call with
`inputBuffer.length() > 0` — so the empty line is never handed to the
parser and no `TooShort` diagnostic occurs, contradicting the claim. -/
theorem claim_C9_counterexample :
    pushByte [] '\n' = ([], ReadEvent.none) ∧
    ReadEvent.none ≠ ReadEvent.line ([] : List Char) := by
  exact ⟨rfl, by decide⟩

/-- Claim C9 (amended): when `\n` arrives on a nonempty buffer the
accumulated line (terminator excluded) is handed on and the buffer reset;
a bare `\n` on an empty buffer produces nothing and reaches no parser; a
single-character line that is handed over yields `TooShort`. -/
theorem claim_C9_lineReady :
    (∀ buf : List Char, buf ≠ [] →
      pushByte buf '\n' = ([], ReadEvent.line buf)) ∧
    pushByte [] '\n' = ([], ReadEvent.none) ∧
    (∀ (st : ArmState) (c : Char),
      parseCommand st [c] = (st, ParseResult.tooShort)) := by
  refine ⟨?_, rfl, ?_⟩
  · intro buf hb
    simp only [pushByte, if_true]
    rw [if_pos (List.length_pos.mpr hb)]
  · intro st c
    have h := trimC_length_le [c]
    simp only [List.length_cons, List.length_nil] at h
    simp only [parseCommand]
    rw [if_pos (by omega)]

/-- Claim C9 witness: the one-character line "1" is delivered and parses
as `TooShort`. -/
theorem claim_C9_witness :
    pushByte ['1'] '\n' = ([], ReadEvent.line ['1']) ∧
    parseCommand initState ['5'] = (initState, ParseResult.tooShort) :=
  ⟨claim_C9_lineReady.1 ['1'] (by decide),
   claim_C9_lineReady.2.2 initState '5'⟩
